import Mathlib

/-!
Verification of the landeskunde-portal core: a shallow embedding of the
places pipeline (`src/pipelines/01_build_places.py`) and of the in-memory
place search (`src/services/search_places.py`), with theorems about the
coercion, coordinate-conversion, record-building, header-validation,
index-construction, loading and query operations.

Python strings are embedded as `List Char`; pandas cells (which hold either
a string or NaN, since the sheets are read with `dtype=str`) as
`Option (List Char)`; Python `int` as `Int` and Python `float` as `Rat`;
Python dicts that are built by insertion as association lists in insertion
order.  The pyproj transformation and the RapidFuzz scorer are external
libraries and enter as function parameters.
-/

set_option maxHeartbeats 1000000

abbrev Str := List Char

/-- A pandas cell read with `dtype=str`: NaN (`pd.isna`) or a string. -/
abbrev Cell := Option Str

/-- Python `str.strip()` (both ends, whitespace). -/
def pyStrip (l : Str) : Str :=
  ((l.dropWhile Char.isWhitespace).reverse.dropWhile Char.isWhitespace).reverse

/-- Python `str.lower()` (ASCII fragment). -/
def pyLower (l : Str) : Str := l.map Char.toLower

/-- The numeric value of a digit string (used by the `int`/`float` parsers). -/
def digitsToNat (l : Str) : Nat := l.foldl (fun n c => 10 * n + (c.toNat - 48)) 0

def isAllDigits (l : Str) : Bool := l.all Char.isDigit

/-- Python `int(s)` on a string made only of digits and `-` (which is the
shape `to_int_safe` feeds it): an optional single leading sign followed by
at least one digit; anything else raises `ValueError`, i.e. `none`. -/
def parseIntPy (l : Str) : Option Int :=
  match l with
  | [] => none
  | c :: rest =>
      if c = '-' then
        if rest ≠ [] ∧ isAllDigits rest then some (-(digitsToNat rest : Int)) else none
      else if isAllDigits (c :: rest) then some (digitsToNat (c :: rest) : Int)
      else none

/-- The string mangling of `to_int_safe`:
`s.replace(".", "").replace(" ", "")` then `re.sub(r"[^\d\-]", "", s)`. -/
def intPrep (s : Str) : Str :=
  let s := s.filter (fun c => c ≠ '.')
  let s := s.filter (fun c => c ≠ ' ')
  s.filter (fun c => c.isDigit || c = '-')

/-- `to_int_safe` of `01_build_places.py`: NaN or blank gives `None`,
otherwise strip, drop thousands dots and spaces, keep digits and sign,
and parse; a `ValueError` gives `None`. -/
def to_int_safe (x : Cell) : Option Int :=
  match x with
  | none => none
  | some raw =>
      let s := pyStrip raw
      if s = [] then none else parseIntPy (intPrep s)

/-- Python `float(s)` on a string made only of digits, `.` and `-` (the
shape `to_float_safe` feeds it): optional leading sign, then digits with at
most one dot and at least one digit; anything else is `ValueError`/`none`. -/
def floatOfBody (neg : Bool) (body : Str) : Option Rat :=
  let intPart := body.takeWhile (fun c => c ≠ '.')
  let rest := body.dropWhile (fun c => c ≠ '.')
  match rest with
  | [] =>
      if body ≠ [] ∧ isAllDigits body then
        some (if neg then -(digitsToNat body : Rat) else (digitsToNat body : Rat))
      else none
  | _ :: frac =>
      if '.' ∈ frac then none
      else if (intPart ≠ [] ∨ frac ≠ []) ∧ isAllDigits intPart ∧ isAllDigits frac then
        let v : Rat := (digitsToNat intPart : Rat) + (digitsToNat frac : Rat) / (10 : Rat) ^ frac.length
        some (if neg then -v else v)
      else none

def parseFloatPy (l : Str) : Option Rat :=
  match l with
  | [] => none
  | c :: rest => if c = '-' then floatOfBody true rest else floatOfBody false (c :: rest)

/-- The string mangling of `to_float_safe`: `s.replace(".", "")`,
`.replace(" ", "")`, `.replace(",", ".")`, then `re.sub(r"[^\d\.\-]", "", s)`
— thousands dots are removed BEFORE the decimal comma becomes a dot. -/
def floatPrep (s : Str) : Str :=
  let s := s.filter (fun c => c ≠ '.')
  let s := s.filter (fun c => c ≠ ' ')
  let s := s.map (fun c => if c = ',' then '.' else c)
  s.filter (fun c => c.isDigit || c = '.' || c = '-')

/-- `to_float_safe` of `01_build_places.py`. -/
def to_float_safe (x : Cell) : Option Rat :=
  match x with
  | none => none
  | some raw =>
      let s := pyStrip raw
      if s = [] then none else parseFloatPy (floatPrep s)

/-- `to_str_safe` of `01_build_places.py`: NaN gives `None`, otherwise the
stripped string, or `None` when that is empty (`s or None`). -/
def to_str_safe (x : Cell) : Option Str :=
  match x with
  | none => none
  | some raw =>
      let s := pyStrip raw
      if s = [] then none else some s

-- Coordinate conversion -------------------------------------------------

/-- The pyproj transformation for a zone, applied to easting/northing with
`always_xy=True`, so it returns `(lon, lat)`.  pyproj is an external
library: the transformation enters as a parameter, keyed by the zone the
cached `Transformer` was built from. -/
abbrev Transform := Int → Int → Int → Rat × Rat

/-- `utm_to_wgs84` of `01_build_places.py`: coerce the three components
with `to_int_safe`; any failure gives `(None, None)`; otherwise transform
and keep the result only when it lies in the plausibility box
`45 ≤ lat ≤ 60 ∧ 5 ≤ lon ≤ 20`. -/
def utm_to_wgs84 (t : Transform) (zone easting northing : Cell) :
    Option Rat × Option Rat :=
  match to_int_safe zone, to_int_safe easting, to_int_safe northing with
  | some z, some e, some n =>
      let lon := (t z e n).1
      let lat := (t z e n).2
      if 45 ≤ lat ∧ lat ≤ 60 ∧ 5 ≤ lon ∧ lon ≤ 20 then (some lat, some lon)
      else (none, none)
  | _, _, _ => (none, none)

-- The record builder ----------------------------------------------------

/-- One data row of the normalized dataframe: `row.get(c)` for each
canonical column the pipeline reads (a column that is absent behaves like
NaN, i.e. `none`). -/
structure Row where
  ortsteil_nr : Cell := none
  name : Cell := none
  name_sorb : Cell := none
  status_code : Cell := none
  ags : Cell := none
  ars : Cell := none
  gvnr : Cell := none
  district : Cell := none
  verband_name : Cell := none
  verband_type : Cell := none
  region : Cell := none
  plz : Cell := none
  vorwahl : Cell := none
  population : Cell := none
  area_ha : Cell := none
  utm_zone : Cell := none
  utm_easting : Cell := none
  utm_northing : Cell := none
  last_modified : Cell := none
  corrections : Cell := none
deriving DecidableEq, Repr

/-- The `admin` sub-object of an emitted record. -/
structure AdminInfo where
  district : Option Str
  verband_name : Option Str
  verband_type : Option Str
  region : Option Str
  plz : Option Str
  vorwahl : Option Str
deriving DecidableEq, Repr

/-- The `stats` sub-object of an emitted record. -/
structure StatsInfo where
  population : Option Int
  area_ha : Option Rat
deriving DecidableEq, Repr

/-- The `geo.utm` sub-object (the `crs` field is the constant string
`"ETRS89 / UTM (EPSG:258xx)"` and is left implicit). -/
structure UtmInfo where
  zone : Option Int
  easting : Option Int
  northing : Option Int
deriving DecidableEq, Repr

/-- The `geo` sub-object of an emitted record. -/
structure GeoInfo where
  lat : Option Rat
  lon : Option Rat
  utm : UtmInfo
deriving DecidableEq, Repr

/-- The provenance sub-object (`sources.gemeindeverzeichnis_bb`). -/
structure SourceInfo where
  last_modified : Option Str
  corrections : Option Str
deriving DecidableEq, Repr

/-- One JSON object written to `places.jsonl` by the pipeline's row loop. -/
structure Obj where
  place_id : Str
  name : Str
  name_sorb : Option Str
  status_code : Option Str
  ags : Option Str
  ars : Option Str
  gvnr : Option Str
  admin : AdminInfo
  stats : StatsInfo
  geo : GeoInfo
  aliases : List Str
  sources : SourceInfo
deriving DecidableEq, Repr

/-- The body of the row loop in `main`: coerce `place_id` and `name`; when
either is falsy the row is skipped (`continue`), otherwise the JSON object
is assembled (`to_str_safe` never returns an empty string, so the falsy
test is exactly the `none` test). -/
def buildObj (t : Transform) (row : Row) : Option Obj :=
  match to_str_safe row.ortsteil_nr, to_str_safe row.name with
  | some place_id, some name =>
      let ll := utm_to_wgs84 t row.utm_zone row.utm_easting row.utm_northing
      some
        { place_id := place_id
          name := name
          name_sorb := to_str_safe row.name_sorb
          status_code := to_str_safe row.status_code
          ags := to_str_safe row.ags
          ars := to_str_safe row.ars
          gvnr := to_str_safe row.gvnr
          admin :=
            { district := to_str_safe row.district
              verband_name := to_str_safe row.verband_name
              verband_type := to_str_safe row.verband_type
              region := to_str_safe row.region
              plz := to_str_safe row.plz
              vorwahl := to_str_safe row.vorwahl }
          stats :=
            { population := to_int_safe row.population
              area_ha := to_float_safe row.area_ha }
          geo :=
            { lat := ll.1
              lon := ll.2
              utm :=
                { zone := to_int_safe row.utm_zone
                  easting := to_int_safe row.utm_easting
                  northing := to_int_safe row.utm_northing } }
          aliases := []
          sources :=
            { last_modified := to_str_safe row.last_modified
              corrections := to_str_safe row.corrections } }
  | _, _ => none

/-- The name index: insertion-ordered mapping from lowercased trimmed name
to the place ids appended under it (`index.setdefault(key, []).append(...)`). -/
abbrev NameIndex := List (Str × List Str)

/-- Association-list lookup by key (Python `dict` lookup / `in`). -/
def alookup {β : Type} (k : Str) : List (Str × β) → Option β
  | [] => none
  | (k', v) :: rest => if k = k' then some v else alookup k rest

/-- `index.setdefault(key, []).append(pid)`: append `pid` to the list at
`key`, creating the key at the end in insertion order when absent. -/
def indexAdd (idx : NameIndex) (key : Str) (pid : Str) : NameIndex :=
  match idx with
  | [] => [(key, [pid])]
  | (k, v) :: rest =>
      if key = k then (k, v ++ [pid]) :: rest else (k, v) :: indexAdd rest key pid

/-- The whole row loop of `main`, accumulating the emitted objects (in row
order) and the name index. -/
def buildGo (t : Transform) : List Row → List Obj → NameIndex → List Obj × NameIndex
  | [], recs, idx => (recs, idx)
  | row :: rest, recs, idx =>
      match buildObj t row with
      | none => buildGo t rest recs idx
      | some obj =>
          buildGo t rest (recs ++ [obj])
            (indexAdd idx (pyLower (pyStrip obj.name)) obj.place_id)

/-- The pipeline's record-building pass: the records written to
`places.jsonl` and the name index written to `places_index.json`. -/
def buildPlaces (t : Transform) (rows : List Row) : List Obj × NameIndex :=
  buildGo t rows [] []

/-- A row survives the drop check iff both coercions succeed. -/
def keptRow (row : Row) : Bool :=
  (to_str_safe row.ortsteil_nr).isSome && (to_str_safe row.name).isSome

/-- The number of rows the loop drops (`continue`) for a falsy `place_id`
or `name`. -/
def droppedCount (rows : List Row) : Nat :=
  (rows.filter (fun r => ! keptRow r)).length

/-- The only run figure `main` reports: `print(f"Rows: {len(df)}")`, the
total dataframe row count. -/
def reportedRowCount (rows : List Row) : Nat := rows.length

-- Header normalization and the required-column check ---------------------

/-- Collapse runs of spaces to one space (tail of `re.sub(r"\s+", " ", c)`
after every whitespace character has been mapped to a space). -/
def squeezeSpaces : Str → Str
  | [] => []
  | [c] => [c]
  | a :: b :: rest =>
      if a = ' ' ∧ b = ' ' then squeezeSpaces (b :: rest)
      else a :: squeezeSpaces (b :: rest)

/-- `norm_col` of `01_build_places.py`: strip, lowercase, drop BOMs,
collapse internal whitespace runs to single spaces. -/
def norm_col (c : Str) : Str :=
  let c := pyLower (pyStrip c)
  let c := c.filter (fun ch => ch ≠ '\uFEFF')
  squeezeSpaces (c.map (fun ch => if ch.isWhitespace then ' ' else ch))

/-- `CANON_MAP` of `01_build_places.py` (including the flattened two-row
UTM header variants added by the `update`). -/
def CANON_MAP : List (Str × Str) :=
  [("ortsteil-nr", "ortsteil_nr"),
   ("ortsteil-nr.", "ortsteil_nr"),
   ("ortsteil_nr", "ortsteil_nr"),
   ("status -id", "status_id"),
   ("status-id", "status_id"),
   ("status_id", "status_id"),
   ("status", "status_code"),
   ("amtlicher gemeinde-schlüssel (ags)", "ags"),
   ("amtlicher gemeindeschlüssel (ags)", "ags"),
   ("ags", "ags"),
   ("amtlicher regional-schlüssel (ars)", "ars"),
   ("amtlicher regional schlüssel (ars)", "ars"),
   ("ars", "ars"),
   ("gemeinde-verbandsnr. (gvnr)", "gvnr"),
   ("gemeindeverbandsnr. (gvnr)", "gvnr"),
   ("gvnr", "gvnr"),
   ("gemeinde, ortsteil, gemeindeteil, wohnplatz", "name"),
   ("gemeinde, ortsteil, gemeindeteil, wohnplatz ", "name"),
   ("name", "name"),
   ("sorbischer ortsname", "name_sorb"),
   ("gemeindeverband", "verband_name"),
   ("gemeindeverbandsart", "verband_type"),
   ("landkreis / kreisfreie stadt", "district"),
   ("einwohnerzahl (31.12.2022)", "population"),
   ("fläche in ha (31.12.2022)", "area_ha"),
   ("zone", "utm_zone"),
   ("ostwert", "utm_easting"),
   ("nordwert", "utm_northing"),
   ("postleitzahl (01.01.2026)", "plz"),
   ("telefon- vorwahl", "vorwahl"),
   ("region", "region"),
   ("letzte korrektur", "last_modified"),
   ("korrektur(en)", "corrections"),
   ("utm-koordinaten (etrs 89) zone", "utm_zone"),
   ("utm-koordinaten (etrs 89) ostwert", "utm_easting"),
   ("utm-koordinaten (etrs 89) nordwert", "utm_northing"),
   ("utm koordinaten (etrs 89) zone", "utm_zone"),
   ("utm koordinaten (etrs 89) ostwert", "utm_easting"),
   ("utm koordinaten (etrs 89) nordwert", "utm_northing")].map
    (fun p => (p.1.data, p.2.data))

/-- The header renaming in `main`: a normalized header in `CANON_MAP` is
replaced by its canonical name, any other by its normalized form. -/
def canonize (c : Str) : Str :=
  match alookup (norm_col c) CANON_MAP with
  | some v => v
  | none => norm_col c

/-- Python `needle in hay` on strings: substring containment. -/
def containsSub (needle hay : Str) : Bool :=
  (List.range (hay.length + 1)).any (fun i => (hay.drop i).take needle.length == needle)

/-- `dict.__setitem__`: replace the value under an existing key in place,
else append the pair in insertion order. -/
def dictSet {β : Type} (d : List (Str × β)) (k : Str) (v : β) : List (Str × β) :=
  match d with
  | [] => [(k, v)]
  | (k', v') :: rest => if k = k' then (k, v) :: rest else (k', v') :: dictSet rest k v

/-- `_autofix_utm_columns` of `01_build_places.py`: if the three canonical
UTM columns are not all present, scan for columns whose lowercase form
contains a component keyword together with "utm", and rename the first
candidate of each still-missing component. -/
def autofixUtmColumns (cols : List Str) : List Str :=
  if "utm_zone".data ∈ cols ∧ "utm_easting".data ∈ cols ∧ "utm_northing".data ∈ cols then
    cols
  else
    let zoneCand := cols.filter
      (fun c => containsSub "zone".data (pyLower c) && containsSub "utm".data (pyLower c))
    let eastCand := cols.filter
      (fun c => (containsSub "ostwert".data (pyLower c) || containsSub "easting".data (pyLower c))
        && containsSub "utm".data (pyLower c))
    let northCand := cols.filter
      (fun c => (containsSub "nordwert".data (pyLower c) || containsSub "northing".data (pyLower c))
        && containsSub "utm".data (pyLower c))
    let ren : List (Str × Str) := []
    let ren := if "utm_zone".data ∉ cols ∧ zoneCand ≠ [] then
      dictSet ren (zoneCand.headD []) "utm_zone".data else ren
    let ren := if "utm_easting".data ∉ cols ∧ eastCand ≠ [] then
      dictSet ren (eastCand.headD []) "utm_easting".data else ren
    let ren := if "utm_northing".data ∉ cols ∧ northCand ≠ [] then
      dictSet ren (northCand.headD []) "utm_northing".data else ren
    if ren = [] then cols
    else cols.map (fun c => match alookup c ren with | some n => n | none => c)

/-- The required canonical columns `main` checks for. -/
def requiredCols : List Str :=
  ["ortsteil_nr", "status_code", "name", "ags", "ars", "district",
   "utm_zone", "utm_easting", "utm_northing"].map String.data

/-- `[c for c in required if c not in df.columns]`. -/
def missingCols (cols : List Str) : List Str :=
  requiredCols.filter (fun c => c ∉ cols)

/-- The header pass of `main`: `CANON_MAP` renaming then the UTM autofix. -/
def normalizeHeaders (cols : List Str) : List Str :=
  autofixUtmColumns (cols.map canonize)

/-- The `ValueError` raised by `main` when required columns are missing:
it names the missing canonical fields and the observed headers. -/
structure BuildError where
  missing : List Str
  observed : List Str
deriving DecidableEq, Repr

/-- `main` after the dataframe is read: normalize headers, fail fast when a
required column is unresolved (before any output file is opened), else run
the row loop and produce the two output artifacts. -/
def runMain (t : Transform) (cols : List Str) (rows : List Row) :
    Except BuildError (List Obj × NameIndex) :=
  let ncols := normalizeHeaders cols
  let missing := missingCols ncols
  if missing ≠ [] then .error ⟨missing, ncols⟩
  else .ok (buildPlaces t rows)

-- The search index -------------------------------------------------------

/-- The `admin` sub-object as the search service reads it. -/
structure SAdmin where
  district : Option Str
  verband_name : Option Str
deriving DecidableEq, Repr

/-- The `geo` sub-object as the search service reads it. -/
structure SGeo where
  lat : Option Rat
  lon : Option Rat
deriving DecidableEq, Repr

/-- A JSON object held by `PlaceSearch`, projected to the fields the
service reads (`obj.get(...)`: an absent field is `none`). -/
structure SRec where
  place_id : Option Str
  name : Option Str
  status_code : Option Str
  admin : Option SAdmin
  geo : Option SGeo
deriving DecidableEq, Repr

/-- The `PlaceHit` dataclass of `search_places.py`. -/
structure PlaceHit where
  place_id : Str
  name : Str
  score : Rat
  status_code : Option Str
  district : Option Str
  verband_name : Option Str
  lat : Option Rat
  lon : Option Rat
deriving DecidableEq, Repr

/-- The state `PlaceSearch.__init__` builds: the id-keyed dict and the
precomputed fuzzy-search candidates. -/
structure PlaceSearch where
  places_by_id : List (Str × SRec)
  name_to_id : List (Str × Str)
  candidates : List Str
deriving DecidableEq, Repr

/-- The constructor loop of `PlaceSearch.__init__`: skip records with a
falsy name; for a fresh lowercased name record its pid and append the name
to the candidate list; a name already seen is skipped (first record wins). -/
def initGo : List (Str × SRec) → List (Str × Str) → List Str →
    List (Str × Str) × List Str
  | [], n2i, cands => (n2i, cands)
  | (pid, p) :: rest, n2i, cands =>
      let name := pyStrip (p.name.getD [])
      if name = [] then initGo rest n2i cands
      else
        let key := pyLower name
        if (alookup key n2i).isSome then initGo rest n2i cands
        else initGo rest (n2i ++ [(key, pid)]) (cands ++ [key])

/-- `PlaceSearch.__init__`. -/
def PlaceSearch.init (places : List (Str × SRec)) : PlaceSearch :=
  { places_by_id := places
    name_to_id := (initGo places [] []).1
    candidates := (initGo places [] []).2 }

/-- `PlaceSearch.get`: a plain dict lookup, `None` on a miss. -/
def PlaceSearch.get (ps : PlaceSearch) (pid : Str) : Option SRec :=
  alookup pid ps.places_by_id

/-- The RapidFuzz `fuzz.WRatio` scorer is an external library: it enters
as a parameter mapping (query, candidate) to a score. -/
abbrev Scorer := Str → Str → Rat

/-- Stable descending insertion for `extract`'s ranking. -/
def insertDesc (x : Str × Rat) : List (Str × Rat) → List (Str × Rat)
  | [] => [x]
  | y :: ys => if x.2 ≤ y.2 then y :: insertDesc x ys else x :: y :: ys

/-- Stable sort by descending score. -/
def sortDesc : List (Str × Rat) → List (Str × Rat)
  | [] => []
  | x :: xs => insertDesc x (sortDesc xs)

/-- `rapidfuzz.process.extract(q, candidates, scorer=..., limit=...)`:
score every candidate, rank by descending score (ties keep candidate
order) and keep at most `limit`. -/
def extract (scorer : Scorer) (q : Str) (cands : List Str) (limit : Nat) :
    List (Str × Rat) :=
  (sortDesc (cands.map (fun c => (c, scorer q c)))).take limit

/-- The hit assembly inside `PlaceSearch.search`'s loop. -/
def mkHit (ps : PlaceSearch) (pid : Str) (cand : Str) (score : Rat) : PlaceHit :=
  let p := (alookup pid ps.places_by_id).getD ⟨none, none, none, none, none⟩
  let admin := p.admin.getD ⟨none, none⟩
  let geo := p.geo.getD ⟨none, none⟩
  { place_id := pid
    name := match p.name with | some nm => if nm = [] then cand else nm | none => cand
    score := score
    status_code := p.status_code
    district := admin.district
    verband_name := admin.verband_name
    lat := geo.lat
    lon := geo.lon }

/-- `PlaceSearch.search`: normalize the query, return `[]` for a falsy
query, extract ranked matches, and keep those at or above `min_score`
whose candidate resolves to a truthy pid. -/
def PlaceSearch.search (scorer : Scorer) (ps : PlaceSearch) (query : Str)
    (limit : Nat) (min_score : Int) : List PlaceHit :=
  let q := pyLower (pyStrip query)
  if q = [] then []
  else
    (extract scorer q ps.candidates limit).filterMap (fun m =>
      if m.2 < (min_score : Rat) then none
      else
        match alookup m.1 ps.name_to_id with
        | none => none
        | some pid => if pid = [] then none else some (mkHit ps pid m.1 m.2))

-- Loading the line-delimited store ---------------------------------------

/-- One iteration of the loop in `PlaceSearch.load_default`: strip the
line, skip it when blank, parse it (`json.loads` is modelled by the
`parse` parameter), skip the object when its `place_id` is falsy, else
store it under its pid (a later line with the same pid overwrites). -/
def loadStep (parse : Str → SRec) (places : List (Str × SRec)) (line : Str) :
    List (Str × SRec) :=
  let l := pyStrip line
  if l = [] then places
  else
    let obj := parse l
    match obj.place_id with
    | none => places
    | some pid => if pid = [] then places else dictSet places pid obj

/-- The whole reading loop of `load_default`. -/
def loadLines (parse : Str → SRec) : List Str → List (Str × SRec) →
    List (Str × SRec)
  | [], places => places
  | line :: rest, places => loadLines parse rest (loadStep parse places line)

/-- `PlaceSearch.load_default`, given the file's lines. -/
def load_default (parse : Str → SRec) (lines : List Str) : PlaceSearch :=
  PlaceSearch.init (loadLines parse lines [])

/-- Whether a line contributes a record (non-blank, truthy `place_id`). -/
def keptLine (parse : Str → SRec) (line : Str) : Bool :=
  let l := pyStrip line
  if l = [] then false
  else match (parse l).place_id with
    | none => false
    | some pid => pid ≠ []

/-- The record a line contributes under pid `pid`, if any. -/
def lineRecord (parse : Str → SRec) (pid : Str) (line : Str) : Option SRec :=
  let l := pyStrip line
  if l = [] then none
  else
    let obj := parse l
    match obj.place_id with
    | none => none
    | some pid' => if pid' = [] then none else if pid' = pid then some obj else none

/-- The record of the LAST line of the store carrying pid `pid` (the claim's
"last occurrence wins" reading of the file). -/
def lastWithPid (parse : Str → SRec) (pid : Str) : List Str → Option SRec
  | [] => none
  | line :: rest =>
      match lastWithPid parse pid rest with
      | some r => some r
      | none => lineRecord parse pid line

/-- The pid of the first record of the list whose trimmed lowercased name
is `k` (the claim's "first-encountered record" for a name key). -/
def firstKeyPid : List (Str × SRec) → Str → Option Str
  | [], _ => none
  | (pid, p) :: rest, k =>
      let name := pyStrip (p.name.getD [])
      if name ≠ [] ∧ pyLower name = k then some pid else firstKeyPid rest k

-- ========================================================================
-- Theorems
-- ========================================================================

/-- C4: integer coercion of population text strips thousands-separator
dots then parses, so `"72.461"` yields `72461`; float coercion of area
text strips thousands-separator dots, THEN converts the decimal comma to a
dot, then parses, so `"22.972,5"` yields `22972.5`. -/
theorem locale_numeric_coercion_examples :
    to_int_safe (some "72.461".data) = some 72461 ∧
    to_float_safe (some "22.972,5".data) = some (22972.5 : Rat) := by
  constructor
  · decide
  · show parseFloatPy (floatPrep (pyStrip "22.972,5".data)) = some (22972.5 : Rat)
    rw [show floatPrep (pyStrip "22.972,5".data) = "22972.5".data by decide]
    show some ((digitsToNat "22972".data : Rat) +
        (digitsToNat "5".data : Rat) / (10 : Rat) ^ ("5".data.length)) = some (22972.5 : Rat)
    simp only [show digitsToNat "22972".data = 22972 from by decide,
      show digitsToNat "5".data = 5 from by decide,
      show "5".data.length = 1 from by decide]
    norm_num

/-- C1: `utm_to_wgs84` yields a latitude only together with a longitude
inside the plausibility box `45 ≤ lat ≤ 60`, `5 ≤ lon ≤ 20`; an
unparseable component, or a transformed point outside the box, yields
`(None, None)`. -/
theorem utm_to_wgs84_box_and_safety (t : Transform) (zone easting northing : Cell) :
    (∀ lat, (utm_to_wgs84 t zone easting northing).1 = some lat →
       ∃ lon, (utm_to_wgs84 t zone easting northing).2 = some lon ∧
         45 ≤ lat ∧ lat ≤ 60 ∧ 5 ≤ lon ∧ lon ≤ 20) ∧
    ((to_int_safe zone = none ∨ to_int_safe easting = none ∨ to_int_safe northing = none) →
       utm_to_wgs84 t zone easting northing = (none, none)) ∧
    (∀ z e n, to_int_safe zone = some z → to_int_safe easting = some e →
       to_int_safe northing = some n →
       ¬ (45 ≤ (t z e n).2 ∧ (t z e n).2 ≤ 60 ∧ 5 ≤ (t z e n).1 ∧ (t z e n).1 ≤ 20) →
       utm_to_wgs84 t zone easting northing = (none, none)) := by
  unfold utm_to_wgs84
  rcases hz : to_int_safe zone with _ | z
  · exact ⟨fun lat h => by simp at h, fun _ => rfl, fun z e n hz' => by simp at hz'⟩
  · rcases he : to_int_safe easting with _ | e
    · exact ⟨fun lat h => by simp at h, fun _ => rfl, fun z' e' n' _ he' => by simp at he'⟩
    · rcases hn : to_int_safe northing with _ | n
      · exact ⟨fun lat h => by simp at h, fun _ => rfl, fun z' e' n' _ _ hn' => by simp at hn'⟩
      · by_cases hbox : 45 ≤ (t z e n).2 ∧ (t z e n).2 ≤ 60 ∧ 5 ≤ (t z e n).1 ∧ (t z e n).1 ≤ 20
        · refine ⟨?_, ?_, ?_⟩
          · intro lat h
            simp only [if_pos hbox] at h ⊢
            exact ⟨(t z e n).1, rfl, by
              injection h with h'
              subst h'
              exact hbox⟩
          · rintro (h | h | h) <;> simp at h
          · intro z' e' n' hz' he' hn' hbox'
            injection hz' with hz'; injection he' with he'; injection hn' with hn'
            subst hz'; subst he'; subst hn'
            exact absurd hbox hbox'
        · refine ⟨?_, ?_, ?_⟩
          · intro lat h
            simp only [if_neg hbox] at h
            exact Option.noConfusion h
          · rintro (h | h | h) <;> simp at h
          · intro _ _ _ _ _ _ _
            simp only [if_neg hbox]

-- Record-builder lemmas --------------------------------------------------

theorem to_str_safe_some_ne {c : Cell} {s : Str} (h : to_str_safe c = some s) :
    s ≠ [] := by
  cases c with
  | none => exact absurd h (by simp [to_str_safe])
  | some raw =>
      simp only [to_str_safe] at h
      split at h
      · exact Option.noConfusion h
      · next hne =>
          injection h with h'
          subst h'
          exact hne

theorem buildObj_fields {t : Transform} {r : Row} {o : Obj}
    (h : buildObj t r = some o) :
    to_str_safe r.ortsteil_nr = some o.place_id ∧
    to_str_safe r.name = some o.name ∧
    o.stats.population = to_int_safe r.population ∧
    o.stats.area_ha = to_float_safe r.area_ha := by
  unfold buildObj at h
  rcases hp : to_str_safe r.ortsteil_nr with _ | pid <;> rw [hp] at h
  · exact Option.noConfusion h
  · rcases hn : to_str_safe r.name with _ | nm <;> rw [hn] at h
    · exact Option.noConfusion h
    · injection h with h'
      subst h'
      exact ⟨rfl, rfl, rfl, rfl⟩

theorem buildObj_none_iff {t : Transform} {r : Row} :
    buildObj t r = none ↔ keptRow r = false := by
  unfold buildObj keptRow
  rcases hp : to_str_safe r.ortsteil_nr with _ | pid <;>
    rcases hn : to_str_safe r.name with _ | nm <;> simp

theorem buildGo_cons (t : Transform) (r : Row) (rest : List Row)
    (recs : List Obj) (idx : NameIndex) :
    buildGo t (r :: rest) recs idx =
      match buildObj t r with
      | none => buildGo t rest recs idx
      | some obj => buildGo t rest (recs ++ [obj])
          (indexAdd idx (pyLower (pyStrip obj.name)) obj.place_id) := rfl

theorem buildGo_filter (t : Transform) (rows : List Row) (recs : List Obj)
    (idx : NameIndex) :
    buildGo t rows recs idx = buildGo t (rows.filter keptRow) recs idx := by
  induction rows generalizing recs idx with
  | nil => rfl
  | cons r rest ih =>
      rcases hb : buildObj t r with _ | o
      · have hk : keptRow r = false := buildObj_none_iff.mp hb
        rw [buildGo_cons, hb, List.filter_cons, hk]
        exact ih recs idx
      · have hk : keptRow r = true := by
          cases h : keptRow r
          · exact absurd hb (by simp [buildObj_none_iff.mpr h])
          · rfl
        rw [buildGo_cons, hb, List.filter_cons, hk]
        show buildGo t rest (recs ++ [o]) (indexAdd idx (pyLower (pyStrip o.name)) o.place_id) =
          buildGo t (r :: List.filter keptRow rest) recs idx
        rw [buildGo_cons, hb]
        exact ih _ _

theorem buildGo_mem {t : Transform} {rows : List Row} {recs : List Obj}
    {idx : NameIndex} {o : Obj} (h : o ∈ (buildGo t rows recs idx).1) :
    o ∈ recs ∨ ∃ r ∈ rows, buildObj t r = some o := by
  induction rows generalizing recs idx with
  | nil => exact .inl h
  | cons r rest ih =>
      rcases hb : buildObj t r with _ | obj
      · simp only [buildGo, hb] at h
        rcases ih h with hm | ⟨r', hr', ho'⟩
        · exact .inl hm
        · exact .inr ⟨r', List.mem_cons_of_mem _ hr', ho'⟩
      · simp only [buildGo, hb] at h
        rcases ih h with hm | ⟨r', hr', ho'⟩
        · rcases List.mem_append.mp hm with hm' | hm'
          · exact .inl hm'
          · have : o = obj := by simpa using hm'
            subst this
            exact .inr ⟨r, List.mem_cons_self _ _, hb⟩
        · exact .inr ⟨r', List.mem_cons_of_mem _ hr', ho'⟩

/-- C2: every record the row loop emits has a non-empty `place_id` and a
non-empty `name`, and rows whose `place_id` or `name` coerces to
blank/None contribute nothing — the store and the name index equal those
built from the kept rows alone. -/
theorem emitted_records_nonempty_and_drop_policy (t : Transform) (rows : List Row) :
    (∀ o ∈ (buildPlaces t rows).1, o.place_id ≠ [] ∧ o.name ≠ []) ∧
    buildPlaces t rows = buildPlaces t (rows.filter keptRow) := by
  constructor
  · intro o ho
    rcases buildGo_mem ho with hm | ⟨r, _, hr⟩
    · exact absurd hm (List.not_mem_nil o)
    · obtain ⟨hp, hn, _, _⟩ := buildObj_fields hr
      exact ⟨to_str_safe_some_ne hp, to_str_safe_some_ne hn⟩
  · exact buildGo_filter t rows [] []

-- C3: the claimed run statistics ------------------------------------------

/-- A transformation placeholder for concrete runs whose rows carry no
parseable coordinates (the transform is then never consulted). -/
def tZero : Transform := fun _ _ _ => (0, 0)

/-- A row dropped by the loop: its `ortsteil_nr` cell is NaN. -/
def rowBad : Row := { name := some "Nirgendort".data }

/-- A row the loop keeps. -/
def rowGood : Row :=
  { ortsteil_nr := some "1".data, name := some "Anyplace".data }

/-- C3 counterexample: on a two-row input with one dropped row, the
pipeline emits one record, and the single run figure it reports is the
total dataframe row count (2) — not the number of dropped rows (1); no
skipped counter is returned alongside the records and the name index. -/
theorem no_skipped_statistic_counterexample :
    (buildPlaces tZero [rowBad, rowGood]).1.length = 1 ∧
    droppedCount [rowBad, rowGood] = 1 ∧
    reportedRowCount [rowBad, rowGood] = 2 ∧
    reportedRowCount [rowBad, rowGood] ≠ droppedCount [rowBad, rowGood] := by
  refine ⟨?_, by decide, by decide, by decide⟩
  decide

theorem buildGo_length (t : Transform) (rows : List Row) (recs : List Obj)
    (idx : NameIndex) :
    (buildGo t rows recs idx).1.length =
      recs.length + (rows.filter keptRow).length := by
  induction rows generalizing recs idx with
  | nil => simp [buildGo]
  | cons r rest ih =>
      rcases hb : buildObj t r with _ | o
      · have hk : keptRow r = false := buildObj_none_iff.mp hb
        rw [buildGo_cons, hb, List.filter_cons, hk]
        exact ih recs idx
      · have hk : keptRow r = true := by
          cases h : keptRow r
          · exact absurd hb (by simp [buildObj_none_iff.mpr h])
          · rfl
        rw [buildGo_cons, hb, List.filter_cons, hk]
        show (buildGo t rest (recs ++ [o]) _).1.length = recs.length + (r :: List.filter keptRow rest).length
        rw [ih]
        simp [Nat.add_comm, Nat.add_assoc, Nat.add_left_comm]

theorem length_filter_add_length_not {α : Type} (p : α → Bool) (l : List α) :
    (l.filter p).length + (l.filter (fun x => ! p x)).length = l.length := by
  induction l with
  | nil => rfl
  | cons x xs ih =>
      cases hx : p x <;> simp [List.filter_cons, hx] <;> omega

/-- C3 amended: the record builder returns only the records and the name
index; dropped rows are not separately counted — emitted records plus
dropped rows account for every input row, and the run's single reported
figure is the total row count, not a skipped count. -/
theorem emitted_plus_dropped_accounts_for_rows (t : Transform) (rows : List Row) :
    (buildPlaces t rows).1.length + droppedCount rows = rows.length ∧
    reportedRowCount rows = rows.length := by
  refine ⟨?_, rfl⟩
  unfold buildPlaces droppedCount
  rw [buildGo_length]
  simpa using length_filter_add_length_not keptRow rows

-- C9: sign of the emitted statistics --------------------------------------

theorem mem_dropWhile {α : Type} {c : α} {p : α → Bool} {l : List α}
    (h : c ∈ l.dropWhile p) : c ∈ l := by
  induction l with
  | nil => exact h
  | cons x xs ih =>
      rw [List.dropWhile_cons] at h
      split at h
      · exact List.mem_cons_of_mem _ (ih h)
      · exact h

theorem mem_pyStrip {c : Char} {l : Str} (h : c ∈ pyStrip l) : c ∈ l := by
  unfold pyStrip at h
  rw [List.mem_reverse] at h
  have h1 := mem_dropWhile h
  rw [List.mem_reverse] at h1
  exact mem_dropWhile h1

theorem minus_not_mem_intPrep {l : Str} (h : '-' ∉ l) : '-' ∉ intPrep l := by
  intro hmem
  unfold intPrep at hmem
  exact h (List.mem_of_mem_filter (List.mem_of_mem_filter (List.mem_of_mem_filter hmem)))

theorem minus_not_mem_floatPrep {l : Str} (h : '-' ∉ l) : '-' ∉ floatPrep l := by
  intro hmem
  unfold floatPrep at hmem
  have h1 := List.mem_of_mem_filter hmem
  rw [List.mem_map] at h1
  obtain ⟨c, hc, hc'⟩ := h1
  have : c = '-' := by
    by_cases h2 : c = ','
    · rw [if_pos h2] at hc'
      exact absurd hc' (by decide)
    · rwa [if_neg h2] at hc'
  subst this
  exact h (List.mem_of_mem_filter (List.mem_of_mem_filter hc))

theorem parseIntPy_nonneg {l : Str} {k : Int} (h : '-' ∉ l)
    (hp : parseIntPy l = some k) : 0 ≤ k := by
  cases l with
  | nil => exact absurd hp (by simp [parseIntPy])
  | cons c rest =>
      have hc : ¬ c = '-' := fun hc => h (hc ▸ List.mem_cons_self _ _)
      simp only [parseIntPy] at hp
      rw [if_neg hc] at hp
      split at hp
      · injection hp with hp'
        subst hp'
        exact Int.natCast_nonneg _
      · exact Option.noConfusion hp

theorem floatOfBody_nonneg {body : Str} {q : Rat}
    (hp : floatOfBody false body = some q) : 0 ≤ q := by
  unfold floatOfBody at hp
  simp only [Bool.false_eq_true, if_false] at hp
  split at hp
  · split at hp
    · injection hp with hp'
      subst hp'
      positivity
    · exact Option.noConfusion hp
  · split at hp
    · exact Option.noConfusion hp
    · split at hp
      · injection hp with hp'
        subst hp'
        positivity
      · exact Option.noConfusion hp

theorem parseFloatPy_nonneg {l : Str} {q : Rat} (h : '-' ∉ l)
    (hp : parseFloatPy l = some q) : 0 ≤ q := by
  cases l with
  | nil => exact absurd hp (by simp [parseFloatPy])
  | cons c rest =>
      have hc : ¬ c = '-' := fun hc => h (hc ▸ List.mem_cons_self _ _)
      simp only [parseFloatPy] at hp
      rw [if_neg hc] at hp
      exact floatOfBody_nonneg hp

/-- A row with a minus sign in its population text: the coercion keeps the
sign and the pipeline emits a negative population. -/
def rowNegPop : Row :=
  { ortsteil_nr := some "1".data, name := some "Ort".data,
    population := some "-5".data }

/-- C9 counterexample: the pipeline emits a record whose
`stats.population` is `-5`, which is negative — emitted populations are
not always non-negative. -/
theorem negative_population_counterexample :
    ((buildPlaces tZero [rowNegPop]).1.map (fun o => o.stats.population)) =
      [some (-5 : Int)] ∧
    ¬ (0 : Int) ≤ -5 := by
  exact ⟨by decide, by decide⟩

/-- C9 amended: every emitted record's `stats.population` and
`stats.area_ha` are the safe coercions of the row's cells, and those
coercions yield non-negative values whenever the source text carries no
minus sign (the coercion strips every character except digits, separators
and `-`, so a minus in the source text may produce a negative value). -/
theorem stats_sign_follows_source_text (t : Transform) (rows : List Row) :
    (∀ o ∈ (buildPlaces t rows).1, ∃ r ∈ rows,
        o.stats.population = to_int_safe r.population ∧
        o.stats.area_ha = to_float_safe r.area_ha) ∧
    (∀ s k, '-' ∉ s → to_int_safe (some s) = some k → (0 : Int) ≤ k) ∧
    (∀ s q, '-' ∉ s → to_float_safe (some s) = some q → (0 : Rat) ≤ q) := by
  refine ⟨?_, ?_, ?_⟩
  · intro o ho
    rcases buildGo_mem ho with hm | ⟨r, hr, hro⟩
    · exact absurd hm (List.not_mem_nil o)
    · obtain ⟨_, _, hpop, har⟩ := buildObj_fields hro
      exact ⟨r, hr, hpop, har⟩
  · intro s k hs h
    simp only [to_int_safe] at h
    split at h
    · exact Option.noConfusion h
    · exact parseIntPy_nonneg
        (minus_not_mem_intPrep (fun hm => hs (mem_pyStrip hm))) h
  · intro s q hs h
    simp only [to_float_safe] at h
    split at h
    · exact Option.noConfusion h
    · exact parseFloatPy_nonneg
        (minus_not_mem_floatPrep (fun hm => hs (mem_pyStrip hm))) h

-- C5: fail-fast on unresolved required columns ----------------------------

/-- C5: when, after the `CANON_MAP` normalization and the heuristic UTM
column fixer, required canonical fields are still unresolved, `main`
raises an error carrying exactly the missing canonical fields and the full
observed header list, and produces no records and no index (the files are
only opened after this check). -/
theorem missing_required_columns_fail_fast (t : Transform) (cols : List Str)
    (rows : List Row) (h : missingCols (normalizeHeaders cols) ≠ []) :
    runMain t cols rows =
      .error ⟨missingCols (normalizeHeaders cols), normalizeHeaders cols⟩ ∧
    (∀ out, runMain t cols rows ≠ .ok out) ∧
    (∀ c, c ∈ missingCols (normalizeHeaders cols) ↔
        (c ∈ requiredCols ∧ c ∉ normalizeHeaders cols)) := by
  refine ⟨?_, ?_, ?_⟩
  · simp only [runMain]
    rw [if_pos h]
  · intro out hout
    simp only [runMain] at hout
    rw [if_pos h] at hout
    exact Except.noConfusion hout
  · intro c
    simp [missingCols, List.mem_filter]

/-- C5 witness: a sheet with no recognizable headers at all fails fast,
naming every required canonical field as missing. -/
theorem missing_required_columns_fail_fast_witness :
    runMain tZero [] [] =
      .error ⟨missingCols (normalizeHeaders []), normalizeHeaders []⟩ :=
  (missing_required_columns_fail_fast tZero [] [] (by decide)).1

-- C6: duplicate-name shadowing in the search index ------------------------

theorem alookup_append {β : Type} (k : Str) (l1 l2 : List (Str × β)) :
    alookup k (l1 ++ l2) = (alookup k l1).or (alookup k l2) := by
  induction l1 with
  | nil => simp [alookup, Option.or]
  | cons kv rest ih =>
      obtain ⟨k', v⟩ := kv
      by_cases hk : k = k'
      · simp [alookup, hk, Option.or]
      · simp only [List.cons_append, alookup]
        rw [if_neg hk, if_neg hk]
        exact ih

theorem initGo_lookup (places : List (Str × SRec)) (n2i : List (Str × Str))
    (cands : List Str) (k : Str) :
    alookup k (initGo places n2i cands).1 =
      (alookup k n2i).or (firstKeyPid places k) := by
  induction places generalizing n2i cands with
  | nil => cases h : alookup k n2i <;> simp [initGo, firstKeyPid, Option.or, h]
  | cons pr rest ih =>
      obtain ⟨pid, p⟩ := pr
      simp only [initGo]
      by_cases hname : pyStrip (p.name.getD []) = []
      · rw [if_pos hname, ih]
        have he : firstKeyPid ((pid, p) :: rest) k = firstKeyPid rest k := by
          simp only [firstKeyPid]
          rw [if_neg (fun hcon => hcon.1 hname)]
        rw [he]
      · rw [if_neg hname]
        by_cases hsome : (alookup (pyLower (pyStrip (p.name.getD []))) n2i).isSome
        · rw [if_pos hsome, ih]
          by_cases hk : k = pyLower (pyStrip (p.name.getD []))
          · obtain ⟨v, hv⟩ := Option.isSome_iff_exists.mp hsome
            rw [hk, hv]
            rfl
          · have he : firstKeyPid ((pid, p) :: rest) k = firstKeyPid rest k := by
              simp only [firstKeyPid]
              rw [if_neg (fun hcon => hk hcon.2.symm)]
            rw [he]
        · rw [if_neg hsome, ih, alookup_append]
          have hnone : alookup (pyLower (pyStrip (p.name.getD []))) n2i = none :=
            Option.not_isSome_iff_eq_none.mp hsome
          by_cases hk : k = pyLower (pyStrip (p.name.getD []))
          · rw [hk, hnone]
            have he : firstKeyPid ((pid, p) :: rest)
                (pyLower (pyStrip (p.name.getD []))) = some pid := by
              simp [firstKeyPid, hname]
            rw [he]
            simp [alookup, Option.or]
          · have h1 : alookup k [(pyLower (pyStrip (p.name.getD [])), pid)] = none := by
              simp only [alookup]
              rw [if_neg hk]
            rw [h1]
            have he : firstKeyPid ((pid, p) :: rest) k = firstKeyPid rest k := by
              simp only [firstKeyPid]
              rw [if_neg (fun hcon => hk hcon.2.symm)]
            rw [he]
            cases hx : alookup k n2i <;> rfl

theorem initGo_mapped {places : List (Str × SRec)} {n2i : List (Str × Str)}
    {cands : List Str} {pid : Str}
    (h : pid ∈ (initGo places n2i cands).1.map Prod.snd) :
    pid ∈ n2i.map Prod.snd ∨
      ∃ k, alookup k n2i = none ∧ firstKeyPid places k = some pid := by
  induction places generalizing n2i cands with
  | nil => exact .inl h
  | cons pr rest ih =>
      obtain ⟨pid', p⟩ := pr
      simp only [initGo] at h
      by_cases hname : pyStrip (p.name.getD []) = []
      · rw [if_pos hname] at h
        rcases ih h with h1 | ⟨k, hk, hfirst⟩
        · exact .inl h1
        · refine .inr ⟨k, hk, ?_⟩
          simp only [firstKeyPid]
          rw [if_neg (fun hcon => hcon.1 hname)]
          exact hfirst
      · rw [if_neg hname] at h
        by_cases hsome : (alookup (pyLower (pyStrip (p.name.getD []))) n2i).isSome
        · rw [if_pos hsome] at h
          rcases ih h with h1 | ⟨k, hk, hfirst⟩
          · exact .inl h1
          · refine .inr ⟨k, hk, ?_⟩
            have hkK : k ≠ pyLower (pyStrip (p.name.getD [])) := by
              intro he
              rw [← he, hk] at hsome
              exact Bool.noConfusion hsome
            simp only [firstKeyPid]
            rw [if_neg (fun hcon => hkK hcon.2.symm)]
            exact hfirst
        · rw [if_neg hsome] at h
          rcases ih h with h1 | ⟨k, hk, hfirst⟩
          · rw [List.map_append, List.mem_append] at h1
            rcases h1 with h1 | h1
            · exact .inl h1
            · have hpe : pid = pid' := by simpa using h1
              subst hpe
              refine .inr ⟨pyLower (pyStrip (p.name.getD [])),
                Option.not_isSome_iff_eq_none.mp hsome, ?_⟩
              simp [firstKeyPid, hname]
          · rw [alookup_append] at hk
            have hk1 : alookup k n2i = none := by
              cases hx : alookup k n2i
              · rfl
              · rw [hx] at hk
                exact Option.noConfusion hk
            have hk2 : alookup k [(pyLower (pyStrip (p.name.getD [])), pid')] = none := by
              rw [hk1] at hk
              exact hk
            have hkK : k ≠ pyLower (pyStrip (p.name.getD [])) := by
              intro he
              rw [he] at hk2
              simp [alookup] at hk2
            refine .inr ⟨k, hk1, ?_⟩
            simp only [firstKeyPid]
            rw [if_neg (fun hcon => hkK hcon.2.symm)]
            exact hfirst

theorem firstKeyPid_mem {places : List (Str × SRec)} {k pid : Str}
    (h : firstKeyPid places k = some pid) :
    ∃ p, (pid, p) ∈ places ∧ pyStrip (p.name.getD []) ≠ [] ∧
      pyLower (pyStrip (p.name.getD [])) = k := by
  induction places with
  | nil => exact absurd h (by simp [firstKeyPid])
  | cons pr rest ih =>
      obtain ⟨pid', p⟩ := pr
      simp only [firstKeyPid] at h
      split at h
      · next hguard =>
          injection h with h'
          subst h'
          exact ⟨p, List.mem_cons_self _ _, hguard.1, hguard.2⟩
      · obtain ⟨p', hp', hn, hkey⟩ := ih h
        exact ⟨p', List.mem_cons_of_mem _ hp', hn, hkey⟩

theorem alookup_of_mem_nodup {β : Type} {places : List (Str × β)} {pid : Str}
    {p : β} (hnd : (places.map Prod.fst).Nodup) (hmem : (pid, p) ∈ places) :
    alookup pid places = some p := by
  induction places with
  | nil => exact absurd hmem (List.not_mem_nil _)
  | cons pr rest ih =>
      obtain ⟨k', v'⟩ := pr
      rw [List.map_cons, List.nodup_cons] at hnd
      rcases List.mem_cons.mp hmem with he | hm
      · cases he
        simp [alookup]
      · have hne : pid ≠ k' := by
          intro he
          subst he
          exact hnd.1 (List.mem_map.mpr ⟨(pid, p), hm, rfl⟩)
        simp only [alookup]
        rw [if_neg hne]
        exact ih hnd.2 hm

theorem mem_nodup_unique {β : Type} {places : List (Str × β)} {pid : Str}
    {p p' : β} (hnd : (places.map Prod.fst).Nodup) (h1 : (pid, p) ∈ places)
    (h2 : (pid, p') ∈ places) : p = p' :=
  Option.some.inj
    ((alookup_of_mem_nodup hnd h1).symm.trans (alookup_of_mem_nodup hnd h2))

theorem initGo_candidates (places : List (Str × SRec)) (n2i : List (Str × Str))
    (cands : List Str) (h : cands = n2i.map Prod.fst) :
    (initGo places n2i cands).2 = (initGo places n2i cands).1.map Prod.fst := by
  induction places generalizing n2i cands with
  | nil => simpa [initGo] using h
  | cons pr rest ih =>
      obtain ⟨pid, p⟩ := pr
      simp only [initGo]
      by_cases hname : pyStrip (p.name.getD []) = []
      · rw [if_pos hname]
        exact ih _ _ h
      · rw [if_neg hname]
        by_cases hsome : (alookup (pyLower (pyStrip (p.name.getD []))) n2i).isSome
        · rw [if_pos hsome]
          exact ih _ _ h
        · rw [if_neg hsome]
          exact ih _ _ (by simp [h])

theorem alookup_some_mem {β : Type} {k : Str} {v : β} {l : List (Str × β)}
    (h : alookup k l = some v) : k ∈ l.map Prod.fst := by
  induction l with
  | nil => exact absurd h (by simp [alookup])
  | cons kv rest ih =>
      obtain ⟨k', v'⟩ := kv
      simp only [alookup] at h
      by_cases hk : k = k'
      · subst hk
        exact List.mem_cons_self _ _
      · rw [if_neg hk] at h
        exact List.mem_cons_of_mem _ (ih h)

/-- C6: when several loaded records share the same trimmed lowercased
name, the name maps to the first-encountered record's pid, that name is in
the similarity candidate list, a later record's pid appears nowhere among
the mapped pids, and the later record stays reachable through a direct
`get`. -/
theorem duplicate_name_first_wins (places : List (Str × SRec))
    (hnd : (places.map Prod.fst).Nodup) (pid1 pid2 k : Str) (p2 : SRec)
    (h1 : firstKeyPid places k = some pid1)
    (h2 : (pid2, p2) ∈ places)
    (hk2 : pyStrip (p2.name.getD []) ≠ [] ∧
      pyLower (pyStrip (p2.name.getD [])) = k)
    (hne : pid2 ≠ pid1) :
    alookup k (PlaceSearch.init places).name_to_id = some pid1 ∧
    k ∈ (PlaceSearch.init places).candidates ∧
    pid2 ∉ (PlaceSearch.init places).name_to_id.map Prod.snd ∧
    (PlaceSearch.init places).get pid2 = some p2 := by
  have hlook : alookup k (PlaceSearch.init places).name_to_id = some pid1 := by
    show alookup k (initGo places [] []).1 = some pid1
    rw [initGo_lookup]
    exact h1
  refine ⟨hlook, ?_, ?_, ?_⟩
  · have hc : (PlaceSearch.init places).candidates =
        (PlaceSearch.init places).name_to_id.map Prod.fst :=
      initGo_candidates places [] [] rfl
    rw [hc]
    exact alookup_some_mem hlook
  · intro hmem
    rcases @initGo_mapped places [] [] pid2 hmem with
      h0 | ⟨k', _, hfirst⟩
    · simp at h0
    · obtain ⟨p', hp', _, hkey⟩ := firstKeyPid_mem hfirst
      have hpp : p' = p2 := mem_nodup_unique hnd hp' h2
      subst hpp
      have hkk : k' = k := hkey.symm.trans hk2.2
      rw [hkk, h1] at hfirst
      exact hne (Option.some.inj hfirst).symm
  · exact alookup_of_mem_nodup hnd h2

/-- Two loaded records sharing the name "Dorf". -/
def sDorfA : SRec :=
  { place_id := some "A".data, name := some "Dorf".data, status_code := none,
    admin := none, geo := none }

def sDorfB : SRec :=
  { place_id := some "B".data, name := some "Dorf".data, status_code := none,
    admin := none, geo := none }

def placesW : List (Str × SRec) := [("A".data, sDorfA), ("B".data, sDorfB)]

/-- C6 witness: with two records both named "Dorf", the key "dorf" maps to
the first pid, the second pid is absent from the mapped pids, and the
second record is still reachable by `get`. -/
theorem duplicate_name_first_wins_witness :
    alookup "dorf".data (PlaceSearch.init placesW).name_to_id = some "A".data ∧
    "dorf".data ∈ (PlaceSearch.init placesW).candidates ∧
    "B".data ∉ (PlaceSearch.init placesW).name_to_id.map Prod.snd ∧
    (PlaceSearch.init placesW).get "B".data = some sDorfB :=
  duplicate_name_first_wins placesW (by decide) "A".data "B".data "dorf".data
    sDorfB (by decide) (by decide) ⟨by decide, by decide⟩ (by decide)

-- C7 / C8: query-time behavior --------------------------------------------

theorem mem_insertDesc {x y : Str × Rat} {l : List (Str × Rat)}
    (h : y ∈ insertDesc x l) : y = x ∨ y ∈ l := by
  induction l with
  | nil =>
      simp [insertDesc] at h
      exact .inl h
  | cons z zs ih =>
      simp only [insertDesc] at h
      split at h
      · rcases List.mem_cons.mp h with h1 | h1
        · exact .inr (h1 ▸ List.mem_cons_self _ _)
        · rcases ih h1 with h2 | h2
          · exact .inl h2
          · exact .inr (List.mem_cons_of_mem _ h2)
      · rcases List.mem_cons.mp h with h1 | h1
        · exact .inl h1
        · exact .inr h1

theorem mem_sortDesc {y : Str × Rat} {l : List (Str × Rat)}
    (h : y ∈ sortDesc l) : y ∈ l := by
  induction l with
  | nil => simp [sortDesc] at h
  | cons x xs ih =>
      simp only [sortDesc] at h
      rcases mem_insertDesc h with h1 | h1
      · exact h1 ▸ List.mem_cons_self _ _
      · exact List.mem_cons_of_mem _ (ih h1)

theorem filterMap_nil_of_none {α β : Type} {f : α → Option β} {l : List α}
    (h : ∀ a ∈ l, f a = none) : l.filterMap f = [] := by
  induction l with
  | nil => rfl
  | cons x xs ih =>
      rw [List.filterMap_cons, h x (List.mem_cons_self _ _)]
      exact ih (fun a ha => h a (List.mem_cons_of_mem _ ha))

/-- C7: the query-time operations degrade, never fail: a blank query
returns `[]` at once, a query whose candidates all score below `min_score`
returns `[]`, and `get` on an unknown `place_id` returns `None`. -/
theorem query_time_recoverable (scorer : Scorer) (ps : PlaceSearch)
    (query : Str) (limit : Nat) (min_score : Int) (pid : Str) :
    (pyStrip query = [] → PlaceSearch.search scorer ps query limit min_score = []) ∧
    ((∀ c ∈ ps.candidates, scorer (pyLower (pyStrip query)) c < (min_score : Rat)) →
        PlaceSearch.search scorer ps query limit min_score = []) ∧
    (alookup pid ps.places_by_id = none → ps.get pid = none) := by
  refine ⟨?_, ?_, ?_⟩
  · intro h
    simp [PlaceSearch.search, pyLower, h]
  · intro h
    simp only [PlaceSearch.search]
    by_cases hq : pyLower (pyStrip query) = []
    · rw [if_pos hq]
    · rw [if_neg hq]
      apply filterMap_nil_of_none
      intro m hm
      have hmem : m ∈ ps.candidates.map
          (fun c => (c, scorer (pyLower (pyStrip query)) c)) :=
        mem_sortDesc (List.take_subset _ _ hm)
      obtain ⟨c, hc, rfl⟩ := List.mem_map.mp hmem
      rw [if_pos (h c hc)]
  · exact fun h => h

theorem filterMap_length_mono {α β γ : Type} (f : α → Option β)
    (g : α → Option γ) (h : ∀ x, (g x).isSome → (f x).isSome) (l : List α) :
    (l.filterMap g).length ≤ (l.filterMap f).length := by
  induction l with
  | nil => exact Nat.le_refl 0
  | cons x xs ih =>
      rw [List.filterMap_cons, List.filterMap_cons]
      cases hg : g x with
      | none =>
          cases hf : f x with
          | none => exact ih
          | some b => simpa using Nat.le_succ_of_le ih
      | some c =>
          have hs := h x (by rw [hg]; rfl)
          cases hf : f x with
          | none =>
              rw [hf] at hs
              exact absurd hs (by simp)
          | some b => simpa using Nat.succ_le_succ ih

/-- C8: for a fixed query, limit and index, raising `min_score` never
increases the number of returned hits. -/
theorem min_score_monotone (scorer : Scorer) (ps : PlaceSearch) (query : Str)
    (limit : Nat) (a b : Int) (hab : a ≤ b) :
    (PlaceSearch.search scorer ps query limit b).length ≤
      (PlaceSearch.search scorer ps query limit a).length := by
  simp only [PlaceSearch.search]
  by_cases hq : pyLower (pyStrip query) = []
  · simp only [if_pos hq]
    exact Nat.le_refl 0
  · rw [if_neg hq, if_neg hq]
    apply filterMap_length_mono
    intro m hm
    by_cases hb : m.2 < (b : Rat)
    · rw [if_pos hb] at hm
      exact absurd hm (by simp)
    · have ha : ¬ m.2 < (a : Rat) :=
        fun hlt => hb (lt_of_lt_of_le hlt (Int.cast_le.mpr hab))
      rw [if_neg hb] at hm
      rw [if_neg ha]
      exact hm

/-- A concrete constant scorer for the C8 witness. -/
def scorerW : Scorer := fun _ _ => 70

/-- C8 witness: at the thresholds 50 ≤ 60, the hit count at 60 is at most
the hit count at 50. -/
theorem min_score_monotone_witness :
    (PlaceSearch.search scorerW (PlaceSearch.init placesW) "dorf".data 5 60).length ≤
      (PlaceSearch.search scorerW (PlaceSearch.init placesW) "dorf".data 5 50).length :=
  min_score_monotone scorerW (PlaceSearch.init placesW) "dorf".data 5 50 60
    (by decide)

-- C10: loading the line-delimited store -----------------------------------

theorem alookup_dictSet {β : Type} (d : List (Str × β)) (k k' : Str) (v : β) :
    alookup k (dictSet d k' v) = if k = k' then some v else alookup k d := by
  induction d with
  | nil => simp [dictSet, alookup]
  | cons kv rest ih =>
      obtain ⟨k1, v1⟩ := kv
      simp only [dictSet]
      by_cases h1 : k' = k1
      · subst h1
        rw [if_pos rfl]
        by_cases h2 : k = k'
        · simp [alookup, h2]
        · simp [alookup, h2]
      · rw [if_neg h1]
        simp only [alookup]
        by_cases h2 : k = k1
        · subst h2
          have h3 : ¬ k = k' := fun he => h1 he.symm
          simp [h3]
        · rw [if_neg h2, ih]
          simp [h2]

theorem alookup_loadStep (parse : Str → SRec) (acc : List (Str × SRec))
    (line : Str) (pid : Str) :
    alookup pid (loadStep parse acc line) =
      match lineRecord parse pid line with
      | some r => some r
      | none => alookup pid acc := by
  by_cases hb : pyStrip line = []
  · simp [loadStep, lineRecord, hb]
  · simp only [loadStep, lineRecord]
    rw [if_neg hb, if_neg hb]
    cases hpid : (parse (pyStrip line)).place_id with
    | none => rfl
    | some pid' =>
        show alookup pid
            (if pid' = [] then acc else dictSet acc pid' (parse (pyStrip line))) =
          match (if pid' = [] then none
              else if pid' = pid then some (parse (pyStrip line)) else none) with
          | some r => some r
          | none => alookup pid acc
        by_cases h0 : pid' = []
        · rw [if_pos h0, if_pos h0]
        · rw [if_neg h0, if_neg h0, alookup_dictSet]
          by_cases hp : pid = pid'
          · subst hp
            simp
          · have h3 : ¬ pid' = pid := fun he => hp he.symm
            rw [if_neg hp, if_neg h3]

theorem loadLines_lookup (parse : Str → SRec) (lines : List Str)
    (acc : List (Str × SRec)) (pid : Str) :
    alookup pid (loadLines parse lines acc) =
      match lastWithPid parse pid lines with
      | some r => some r
      | none => alookup pid acc := by
  induction lines generalizing acc with
  | nil => rfl
  | cons line rest ih =>
      simp only [loadLines, lastWithPid]
      rw [ih, alookup_loadStep]
      cases h1 : lastWithPid parse pid rest <;>
        cases h2 : lineRecord parse pid line <;> simp

theorem loadStep_not_kept (parse : Str → SRec) (acc : List (Str × SRec))
    (line : Str) (h : keptLine parse line = false) :
    loadStep parse acc line = acc := by
  simp only [loadStep, keptLine] at *
  by_cases hb : pyStrip line = []
  · rw [if_pos hb]
  · rw [if_neg hb] at h ⊢
    cases hpid : (parse (pyStrip line)).place_id with
    | none => rfl
    | some pid =>
        rw [hpid] at h
        simp at h
        simp [h]

theorem loadLines_filter (parse : Str → SRec) (lines : List Str)
    (acc : List (Str × SRec)) :
    loadLines parse lines acc =
      loadLines parse (lines.filter (keptLine parse)) acc := by
  induction lines generalizing acc with
  | nil => rfl
  | cons line rest ih =>
      cases hk : keptLine parse line
      · rw [List.filter_cons, hk]
        simp only [loadLines]
        rw [loadStep_not_kept parse acc line hk]
        exact ih acc
      · rw [List.filter_cons, hk]
        simp only [loadLines]
        exact ih _

/-- C10: loading the store skips blank/whitespace-only lines and objects
with a missing or falsy `place_id`, and a later line overwrites an earlier
line with the same pid, so `get` returns the record of the last occurrence
of that pid in the file. -/
theorem load_default_last_wins (parse : Str → SRec) (lines : List Str)
    (pid : Str) :
    (load_default parse lines).get pid = lastWithPid parse pid lines ∧
    loadLines parse lines [] =
      loadLines parse (lines.filter (keptLine parse)) [] := by
  constructor
  · show alookup pid (loadLines parse lines []) = lastWithPid parse pid lines
    rw [loadLines_lookup]
    cases h : lastWithPid parse pid lines <;> simp [alookup]
  · exact loadLines_filter parse lines []
